import Mathlib

/-!
Verification development for the FastSNAP rules-to-PCRE translator
(src/rules_to_pcre.cpp, src/parser_options.hpp).

The per-rule option strings are modelled as lists of characters.  Each
regex used by the C++ source (via pcrecpp) is embedded as a dedicated
matching function that reproduces the behaviour of that regex under the
options the source compiles it with (greedy or ungreedy, unanchored
Consume or FindAndConsume), specialised to the concrete pattern text.
-/

namespace FastSNAP

/-- Errors thrown by getContentPattern, one constructor per
std::runtime_error message in src/rules_to_pcre.cpp. -/
inductive CompileError where
  | malformedContent
  | malformedPcre
  | unsupportedNegativeParam
  | invalidDepth
deriving DecidableEq, Repr

/-- The what() strings of the exceptions thrown in src/rules_to_pcre.cpp. -/
def errorMessage : CompileError → List Char
  | .malformedContent => "Provided content pattern didn\x27t match the standard pattern!".data
  | .malformedPcre => "Provided pcre pattern didn\x27t match the standard pattern!".data
  | .unsupportedNegativeParam => "Handling of negative parameter values is not implemented!".data
  | .invalidDepth => "Encountered depth/within less than content string length!".data

/-- Boolean test that x is a leading segment of l. -/
def leadsWith : List Char → List Char → Bool
  | [], _ => true
  | _ :: _, [] => false
  | x :: xs, y :: ys => x = y && leadsWith xs ys

/-- Boolean test that x occurs contiguously somewhere inside l. -/
def occursIn (x : List Char) : List Char → Bool
  | [] => leadsWith x []
  | c :: rest => leadsWith x (c :: rest) || occursIn x rest

/-- The characters replaced by escapePattern, the regex
(\.|\^|\$|\*|\+|\?|\(|\)|\[|\x7b|\\|\/) of rules_to_pcre.cpp line 143
(the literal brace is written here as its code point). -/
def escapeChars : List Char := ['.', '^', '$', '*', '+', '?', '(', ')', '[', '\x7b', '\\', '/']

/-- escapePattern.GlobalReplace("\\\1", s): prepend a backslash to every
regex metacharacter, returning the rewritten string and the number of
replacements (escapePatternCount in the source). -/
def escapeReplace : List Char → List Char × Nat
  | [] => ([], 0)
  | c :: rest =>
    let p := escapeReplace rest
    if c ∈ escapeChars then ('\\' :: c :: p.1, p.2 + 1) else (c :: p.1, p.2)

/-- The character class [A-F\d] used by pipePattern and hexPattern. -/
def hexDigit (c : Char) : Bool := c.isDigit || ('A' ≤ c && c ≤ 'F')

/-- Anchored match of ((?:[A-F\d]{2} ?)*)\| : greedily consume two-hex-digit
groups each optionally followed by a space, then require a closing pipe.
Returns the consumed run (isRaw capture) and the text after the pipe. -/
def hexRunMatch : List Char → Option (List Char × List Char)
  | '|' :: rest => some ([], rest)
  | c1 :: c2 :: ' ' :: t =>
    if hexDigit c1 && hexDigit c2 then
      (hexRunMatch t).map (fun p => (c1 :: c2 :: ' ' :: p.1, p.2))
    else none
  | c1 :: c2 :: rest =>
    if hexDigit c1 && hexDigit c2 then
      (hexRunMatch rest).map (fun p => (c1 :: c2 :: p.1, p.2))
    else none
  | _ => none

/-- pipePattern.FindAndConsume on (.* )\|((?:[A-F\d]{2} ?)*)\| (line 144,
space added here to keep the comment well formed): the greedy leading
group prefers the longest prefix, so the rightmost pipe that opens a
well-formed hex run is chosen.  Returns (prefix capture, isRaw capture,
text after the closing pipe). -/
def pipeFind : List Char → Option (List Char × List Char × List Char)
  | [] => none
  | c :: rest =>
    match pipeFind rest with
    | some (a, r, b) => some (c :: a, r, b)
    | none =>
      if c = '|' then (hexRunMatch rest).map (fun p => ([], p.1, p.2)) else none

/-- hexPattern.GlobalReplace("\\x\1", s) for hexPattern ([\dA-F]{2}) ? :
rewrite every two-hex-digit group (plus one optional trailing space) to a
backslash-x escape, counting replacements (hexPatternCount increments). -/
def hexReplace : List Char → List Char × Nat
  | [] => ([], 0)
  | [c] => ([c], 0)
  | c1 :: c2 :: ' ' :: t =>
    if hexDigit c1 && hexDigit c2 then
      let p := hexReplace t
      ('\\' :: 'x' :: c1 :: c2 :: p.1, p.2 + 1)
    else
      let p := hexReplace (c2 :: ' ' :: t)
      (c1 :: p.1, p.2)
  | c1 :: c2 :: rest =>
    if hexDigit c1 && hexDigit c2 then
      let p := hexReplace rest
      ('\\' :: 'x' :: c1 :: c2 :: p.1, p.2 + 1)
    else
      let p := hexReplace (c2 :: rest)
      (c1 :: p.1, p.2)

/-- One round of the while loop at lines 168-172, iterated with explicit
fuel: find the next pipe-delimited hex run, splice in its \xHH rewriting,
and rescan the rewritten string from the start.  Every iteration removes
exactly the two delimiter pipes, so the pipe count of the string strictly
decreases and a fuel of count+1 can never run out before the search
fails. -/
def pipeLoopF : Nat → List Char → Nat → List Char × Nat
  | 0, s, n => (s, n)
  | fuel + 1, s, n =>
    match pipeFind s with
    | none => (s, n)
    | some (a, r, b) =>
      let hr := hexReplace r
      pipeLoopF fuel (a ++ hr.1 ++ b) (n + hr.2)

/-- The full pipe-resolution pass over a content string: final string and
hexPatternCount. -/
def pipeLoop (s : List Char) : List Char × Nat := pipeLoopF (s.count '|' + 1) s 0

/-- The four parameter keywords of contentParamPattern (line 141). -/
inductive ParamKind where
  | offset
  | depth
  | distance
  | within
deriving DecidableEq, Repr

/-- Keyword spellings, in the alternation order of the source regex. -/
def paramKeywords : List (List Char × ParamKind) :=
  [("offset".data, .offset), ("depth".data, .depth),
   ("distance".data, .distance), ("within".data, .within)]

/-- Numeric value of a digit string. -/
def natOfDigits (l : List Char) : Nat :=
  l.foldl (fun acc c => acc * 10 + (c.toNat - '0'.toNat)) 0

/-- Anchored attempt of (offset|depth|distance|within):(\d+) at the head
of l: the keyword, the greedily captured digit value, and the rest. -/
def tryParamAt (l : List Char) : Option (ParamKind × Nat × List Char) :=
  paramKeywords.findSome? fun kw =>
    if leadsWith (kw.1 ++ [':']) l then
      let r2 := l.drop (kw.1.length + 1)
      let ds := r2.takeWhile Char.isDigit
      if ds = [] then none else some (kw.2, natOfDigits ds, r2.dropWhile Char.isDigit)
    else none

/-- Unanchored leftmost search of contentParamPattern, as performed by
FindAndConsume at line 177. -/
def paramFind : List Char → Option (ParamKind × Nat × List Char)
  | [] => none
  | c :: rest =>
    match tryParamAt (c :: rest) with
    | some r => some r
    | none => paramFind rest

/-- The while loop at lines 177-196, with explicit fuel: every successful
find consumes at least one character of the remainder, so fuel
length+1 can never be exhausted before the search fails.  A captured
value that overflows the int argument makes pcrecpp report a failed
match, ending the loop (the \d+ capture itself can never be negative, so
the value < 0 throw is kept verbatim but is unreachable). -/
def paramLoopF : Nat → List Char → Nat → Option Nat → Bool →
    Except CompileError (Nat × Option Nat × Bool)
  | 0, _, off, dep, rel => .ok (off, dep, rel)
  | fuel + 1, l, off, dep, rel =>
    match paramFind l with
    | none => .ok (off, dep, rel)
    | some (k, v, rest) =>
      if v > 2147483647 then .ok (off, dep, rel)
      else
        let value : Int := (v : Int)
        if value < 0 then .error .unsupportedNegativeParam
        else
          match k with
          | .offset => paramLoopF fuel rest v dep rel
          | .depth => paramLoopF fuel rest off (some v) rel
          | .distance => paramLoopF fuel rest v dep true
          | .within => paramLoopF fuel rest off (some v) true

/-- The whole parameter-scanning loop over the text following the content
clause, starting from offset = 0, depth = npos, relativePattern = false. -/
def paramLoop (l : List Char) : Except CompileError (Nat × Option Nat × Bool) :=
  paramLoopF (l.length + 1) l 0 none false

/-- Greedy (.*)\" : split l at its last double quote, returning the text
before it and the text after it. -/
def splitAtLastQuote : List Char → Option (List Char × List Char)
  | [] => none
  | c :: rest =>
    match splitAtLastQuote rest with
    | some (a, b) => some (c :: a, b)
    | none => if c = '"' then some ([], rest) else none

/-- contentPattern.Consume for content:(!?)\"(.* )\" (line 140, space
added in this comment only): anchored at the start of the clause.
Returns (negated, raw content capture, unconsumed remainder). -/
def consumeContent (s : List Char) : Option (Bool × List Char × List Char) :=
  if leadsWith "content:".data s then
    let r1 := s.drop 8
    let (neg, r2) := match r1 with
      | '!' :: t => (true, t)
      | _ => (false, r1)
    match r2 with
    | '"' :: r3 => (splitAtLastQuote r3).map (fun p => (neg, p.1, p.2))
    | _ => none
  else none

/-- The \w character class of PCRE. -/
def wordChar (c : Char) : Bool := c.isAlphanum || c = '_'

/-- Match (\w*)\" lazily: the first double quote ends the capture and all
characters before it must be word characters. -/
def modsClose : List Char → Option (List Char × List Char)
  | [] => none
  | '"' :: rest => some ([], rest)
  | c :: rest =>
    if wordChar c then (modsClose rest).map (fun p => (c :: p.1, p.2)) else none

/-- Match [\/]?(\w*)\" under PCRE_UNGREEDY: the optional slash is tried
empty first. -/
def slashModsClose (l : List Char) : Option (List Char × List Char) :=
  match modsClose l with
  | some r => some r
  | none =>
    match l with
    | '/' :: rest => modsClose rest
    | _ => none

/-- The lazy (.*)[\/]?(\w*)\" tail of pcrePattern (line 142, compiled with
PCRE_UNGREEDY): the shortest pattern capture whose continuation closes
with modifiers and a quote.  Returns (pattern, modifiers, rest). -/
def pcreBody : List Char → Option (List Char × List Char × List Char)
  | [] => none
  | c :: rest =>
    match slashModsClose (c :: rest) with
    | some (m, r) => some ([], m, r)
    | none => (pcreBody rest).map (fun t => (c :: t.1, t.2.1, t.2.2))

/-- pcrePattern.Consume for pcre:(!?)\"\/(.*)[\/]?(\w*)\" with
PCRE_UNGREEDY (line 142): anchored at the start of the clause.  Returns
(negated, pattern, modifiers, rest). -/
def consumePcre (s : List Char) : Option (Bool × List Char × List Char × List Char) :=
  if leadsWith "pcre:".data s then
    let r1 := s.drop 5
    let (neg, r2) := match r1 with
      | '!' :: t => (true, t)
      | _ => (false, r1)
    match r2 with
    | '"' :: '/' :: r3 => (pcreBody r3).map (fun t => (neg, t.1, t.2.1, t.2.2))
    | _ => none
  else none

/-- thisModifiers.find('R') and replace(index, 1, "") at lines 236-239:
remove the first R if present. -/
def removeFirstR : List Char → Option (List Char)
  | [] => none
  | c :: rest => if c = 'R' then some rest else (removeFirstR rest).map (c :: ·)

/-- Everything getContentPattern extracts from one content clause before
assembling its element (lines 157-196). -/
structure ParsedContent where
  negated : Bool
  contentString : List Char
  escCount : Nat
  hexCount : Nat
  modifiers : List Char
  offset : Nat
  depth : Option Nat
  relative : Bool
deriving DecidableEq, Repr

/-- Parse one content clause: anchored consume, metacharacter escaping,
nocase detection, pipe-run resolution and the parameter loop, in source
order. -/
def parseContent (s : List Char) : Except CompileError ParsedContent :=
  match consumeContent s with
  | none => .error .malformedContent
  | some (neg, content0, rest) =>
    let ep := escapeReplace content0
    let mods := if occursIn "nocase;".data rest then "i".data else []
    let pl := pipeLoop ep.1
    match paramLoop rest with
    | .error e => .error e
    | .ok (off, dep, rel) =>
      .ok ⟨neg, pl.1, ep.2, pl.2, mods, off, dep, rel⟩

/-- contentSize at line 206: transformed length minus one character per
escape insertion minus three characters per hex substitution. -/
def semanticLength (p : ParsedContent) : Nat :=
  p.contentString.length - p.escCount * 1 - p.hexCount * 3

/-- The depth < contentSize test at line 207; std::string::npos (depth
unset) is never smaller than the length. -/
def depthLtSize : Option Nat → Nat → Bool
  | some d, n => d < n
  | none, _ => false

/-- Element assembly for a content clause, lines 201-232.  The braces of
the bounded repetition are emitted through their code points. -/
def buildContent (p : ParsedContent) : Except CompileError (List Char) :=
  let cSize := semanticLength p
  let openMod := if p.modifiers = [] then [] else "(?".data ++ p.modifiers ++ ":".data
  let closeMod := if p.modifiers = [] then ([] : List Char) else ")".data
  if p.offset > 0 || p.depth.isSome then
    if depthLtSize p.depth cSize then .error .invalidDepth
    else
      let anchor := if !p.relative then "^".data else []
      let e := match p.depth with
        | some d => (p.offset + d) - cSize
        | none => 0
      let gap :=
        if p.offset > 0 || e > p.offset then
          ".\x7b".data ++ (Nat.repr p.offset).data ++
            (if e > p.offset then ",".data ++ (Nat.repr e).data else []) ++ "\x7d".data
        else []
      let tailStar := if p.depth.isNone then ".*".data else []
      .ok (openMod ++ anchor ++ gap ++ tailStar ++ p.contentString ++ closeMod)
  else if p.relative then
    .ok (openMod ++ ".*".data ++ p.contentString ++ closeMod)
  else
    .ok (openMod ++ p.contentString ++ closeMod)

/-- Negative-lookahead wrap for a negated clause, lines 249-251. -/
def applyNegation (neg : Bool) (pat : List Char) : List Char :=
  if neg then "(?!".data ++ pat ++ ")".data else pat

/-- Processing of one pattern specifier (one iteration of the loop body,
lines 148-251): the element text and its relativePattern flag. -/
def processSpec (s : List Char) : Except CompileError (List Char × Bool) :=
  if s.take 7 = "content".data then
    match parseContent s with
    | .error e => .error e
    | .ok p =>
      match buildContent p with
      | .error e => .error e
      | .ok body => .ok (applyNegation p.negated body, p.relative)
  else
    match consumePcre s with
    | none => .error .malformedPcre
    | some (neg, pat0, mods0, _) =>
      let (mods, rel) := match removeFirstR mods0 with
        | some m => (m, true)
        | none => (mods0, false)
      let body :=
        if mods = [] then pat0 else "(?".data ++ mods ++ ":".data ++ pat0 ++ ")".data
      .ok (applyNegation neg body, rel)

/-- Append t to the text of the last element, as
( *(independentPatterns.rbegin())).append(thisPattern) does at line 253. -/
def appendToLast : List (List Char) → List Char → List (List Char)
  | [], t => [t]
  | [x], t => [x ++ t]
  | x :: y :: rest, t => x :: appendToLast (y :: rest) t

/-- The main loop of getContentPattern (lines 147-258) threading the
independentPatterns vector: a relative element with a predecessor is
appended onto the last element, every other element is pushed. -/
def buildGo (acc : List (List Char)) : List (List Char) → Except CompileError (List (List Char))
  | [] => .ok acc
  | s :: rest =>
    match processSpec s with
    | .error e => .error e
    | .ok (t, rel) =>
      buildGo (if rel && acc.length > 0 then appendToLast acc t else acc ++ [t]) rest

/-- The combining step at lines 260-268: every element but the last
becomes a (?=.* ...) lookahead, then .* and the final element, which is
read at index numPatterns - 1 without a bounds check; the out-of-bounds
read on an empty vector is modelled as none. -/
def combinePatterns (ps : List (List Char)) : Option (List Char) :=
  let n := ps.length
  let lookaheads :=
    if n > 1 then
      ((ps.take (n - 1)).foldl (fun acc q => acc ++ "(?=.*".data ++ q ++ ")".data) []) ++ ".*".data
    else []
  (ps[n - 1]?).map (fun lastP => lookaheads ++ lastP)

/-- getContentPattern (lines 137-271) over an ordered list of pattern
specifiers. -/
def getContentPattern (patternVector : List (List Char)) :
    Except CompileError (Option (List Char)) :=
  match buildGo [] patternVector with
  | .error e => .error e
  | .ok ps => .ok (combinePatterns ps)

/-! Keyword classification tables (rules_to_pcre.cpp lines 14-92). -/

/-- separatorKeywords, lines 18-19. -/
def separatorKeywords : List String :=
  ["http_client_body", "http_cookie", "http_raw_cookie", "http_header", "http_raw_header",
   "http_method", "http_uri", "http_raw_uri", "http_stat_code", "http_stat_msg",
   "pkt_data", "file_data"]

/-- rawSeparatorKeywords, lines 22-23. -/
def rawSeparatorKeywords : List String :=
  ["", "http_raw_cookie", "http_raw_cookie", "http_raw_header", "http_raw_header", "",
   "http_raw_uri", "http_raw_uri", "", "", "", ""]

/-- separatorModifiers, lines 26-27 (the null character marks a missing
modifier). -/
def separatorModifiers : List Char :=
  ['P', 'C', 'K', 'H', 'D', 'M', 'U', 'I', 'S', 'Y', '\x00', '\x00']

/-- std::map insert: the first insertion of a key wins, later inserts of
the same key are ignored. -/
def mapInsert (m : List (String × String)) (k v : String) : List (String × String) :=
  if m.any (fun p => p.1 = k) then m else m ++ [(k, v)]

/-- getRawKeywordsMap (lines 40-52): raw keyword to its canonical
keyword, for the nonempty raw names. -/
def getRawKeywordsMap : List (String × String) :=
  (List.zip rawSeparatorKeywords separatorKeywords).foldl
    (fun m p => if p.1 = "" then m else mapInsert m p.1 p.2) []

/-- Lookup in an association list, first match. -/
def mapFind (m : List (String × String)) (k : String) : Option String :=
  (m.find? (fun p => p.1 = k)).map (fun p => p.2)

/-- getSeparatorKeywordIndices (lines 59-74): consecutive indices from 1
over the separator keywords that are not keys of the raw-keywords map. -/
def getSeparatorKeywordIndices : List (String × Nat) :=
  (separatorKeywords.foldl
    (fun (acc : List (String × Nat) × Nat) kw =>
      if mapFind getRawKeywordsMap kw = none then (acc.1 ++ [(kw, acc.2)], acc.2 + 1) else acc)
    ([], 1)).1

/-- getSeparatorModifierIndices (lines 80-92): the modifier character at
array position i maps to index i + 1, null entries skipped. -/
def getSeparatorModifierIndices : List (Char × Nat) :=
  (separatorModifiers.enum.foldl
    (fun m p => if p.2 ≠ '\x00' then m ++ [(p.2, p.1 + 1)] else m) [])

/-- Left lookup of the keyword bimap: keyword to index. -/
def lookupKeyword (k : String) : Option Nat :=
  (getSeparatorKeywordIndices.find? (fun p => p.1 = k)).map (fun p => p.2)

/-- Lookup in the modifier map: modifier character to index. -/
def lookupModifier (c : Char) : Option Nat :=
  (getSeparatorModifierIndices.find? (fun p => p.1 = c)).map (fun p => p.2)

/-- Right lookup of the keyword bimap: index back to keyword, as used at
line 363 to name the output file; a missing index (where the source
would dereference the end iterator) is modelled as none. -/
def keywordIndexToName (i : Nat) : Option String :=
  (getSeparatorKeywordIndices.find? (fun p => p.2 = i)).map (fun p => p.1)

/-! The command-line options (src/parser_options.hpp) and the per-rule
stream-assembly loop of main (rules_to_pcre.cpp lines 357-387). -/

/-- ParserOptions of src/parser_options.hpp: the parsed command-line
configuration. -/
structure ParserOptions where
  rulesFiles : List String
  maxLookaheads : Int
  writeFiles : Bool
  negations : Bool
deriving DecidableEq, Repr

/-- One observable action of the loop body at lines 357-387: either a
pattern line emitted for a buffer group (with its destination buffer
file when writeFiles routing is on), or the stderr report produced by
the catch block, which prints the SID header line and the what()
message of the exception. -/
inductive AssemblerOutput where
  | emitted (outputFile : Option String) (toFile : Bool) (line : Option (List Char))
  | reported (lines : List (List Char))
deriving DecidableEq, Repr

/-- The header line printed by the catch block at line 384. -/
def failureHeader (sid : Nat) : List Char :=
  "Getting pattern for rule with SID ".data ++ (Nat.repr sid).data ++ " failed.".data

/-- Processing of one buffer group inside the try/catch of lines
358-386: compile the group; on success name the destination buffer
("payload" for index 0, the keyword for a positive index, suffixed
_raw for a raw group) and emit the sid-prefixed pattern line; on any
runtime_error report the failure header and the exception message. -/
def processGroup (po : ParserOptions) (sid : Nat)
    (g : (Nat × Bool) × List (List Char)) : AssemblerOutput :=
  match getContentPattern g.2 with
  | .error e => .reported [failureHeader sid, errorMessage e]
  | .ok pat =>
    let base : Option String := if g.1.1 > 0 then keywordIndexToName g.1.1 else some "payload"
    let outputFile := base.map (fun b => if g.1.2 then b ++ "_raw" else b)
    .emitted outputFile po.writeFiles
      (pat.map (fun p => (Nat.repr sid).data ++ ": ".data ++ p))

/-- The for loop over contentVectors at lines 357-387 for one rule. -/
def assembleRule (po : ParserOptions) (sid : Nat)
    (groups : List ((Nat × Bool) × List (List Char))) : List AssemblerOutput :=
  groups.map (processGroup po sid)

/-- The AND-combination formula stated by the specification for
independent elements P1..Pn: every element but the last wrapped as
(?=.* Pi) and the last matched for real after a .* stub.  This
definition follows the specification text, to be compared against
combinePatterns. -/
def specAndFormula (ps : List (List Char)) : List Char :=
  (ps.dropLast.map (fun q => "(?=.*".data ++ q ++ ")".data)).foldr (· ++ ·) [] ++
    ".*".data ++ (ps.getLast?).getD []

/-! Theorems. -/

/-- C6: the clause content:"ABC"; offset:2; depth:5; on the default
buffer compiles to a pattern anchored at buffer start whose bounded gap
is offset to offset + depth - semanticLength = 2 + 5 - 3 = 4, i.e. the
caret, the repetition .(2,4) written with braces, then the literal. -/
theorem single_clause_offset_depth_window :
    getContentPattern ["content:\"ABC\"; offset:2; depth:5;".data] =
      .ok (some "^.\x7b2,4\x7dABC".data) := rfl

/-- C3: the classification table is not internally consistent: the
inline modifier H resolves to buffer index 4 while the keyword
http_header resolves to index 3 (the keyword map compacts away the raw
variants, the modifier map does not), and the modifier Y resolves to
index 10, an index the keyword bimap cannot name at all. -/
theorem modifier_keyword_index_mismatch :
    lookupModifier 'H' = some 4 ∧ lookupKeyword "http_header" = some 3 ∧
      lookupModifier 'K' = some 3 ∧ lookupKeyword "http_cookie" = some 2 ∧
      lookupModifier 'Y' = some 10 ∧ keywordIndexToName 10 = none :=
  ⟨rfl, rfl, rfl, rfl, rfl, rfl⟩

/-- The parameter loop can never throw the negative-parameter error: the
digit capture of contentParamPattern is always a non-negative value. -/
theorem paramLoopF_no_negative : ∀ (fuel : Nat) (l : List Char) (off : Nat) (dep : Option Nat)
    (rel : Bool), paramLoopF fuel l off dep rel ≠ .error .unsupportedNegativeParam := by
  intro fuel
  induction fuel with
  | zero => intro l off dep rel h; simp [paramLoopF] at h
  | succ n ih =>
    intro l off dep rel h
    rw [paramLoopF] at h
    rcases hf : paramFind l with _ | ⟨k, v, rest⟩ <;> rw [hf] at h <;> dsimp only at h
    · simp at h
    · by_cases hv : v > 2147483647
      · rw [if_pos hv] at h; simp at h
      · rw [if_neg hv] at h
        have hnn : ¬((v : Int) < 0) := by omega
        rw [if_neg hnn] at h
        cases k <;> exact ih _ _ _ _ h

/-- Content-clause parsing can never produce the negative-parameter
error. -/
theorem parseContent_no_negative : ∀ s, parseContent s ≠ .error .unsupportedNegativeParam := by
  intro s h
  unfold parseContent at h
  rcases hc : consumeContent s with _ | ⟨neg, c0, rest⟩ <;> rw [hc] at h <;> dsimp only at h
  · simp at h
  · rcases hq : paramLoop rest with e | triple <;> rw [hq] at h <;> dsimp only at h
    · simp at h
      exact paramLoopF_no_negative _ _ _ _ _ (h ▸ hq)
    · simp at h

/-- Element assembly fails only with the depth error. -/
theorem buildContent_error_eq : ∀ p e, buildContent p = .error e → e = .invalidDepth := by
  intro p e h
  unfold buildContent at h
  repeat' split at h
  all_goals (try (rw [ite_eq_iff] at h; rcases h with ⟨hc1, h⟩ | ⟨hc1, h⟩))
  all_goals simp_all

/-- Clause processing can never produce the negative-parameter error:
every error path yields one of the other three errors. -/
theorem processSpec_no_negative : ∀ s, processSpec s ≠ .error .unsupportedNegativeParam := by
  intro s h
  unfold processSpec at h
  split at h
  · rcases hp : parseContent s with e | p <;> rw [hp] at h <;> dsimp only at h
    · simp at h
      exact parseContent_no_negative s (h ▸ hp)
    · rcases hb : buildContent p with e | body <;> rw [hb] at h <;> dsimp only at h
      · simp at h
        have := buildContent_error_eq p e hb
        simp [this] at h
      · simp at h
  · rcases hq : consumePcre s with _ | q <;> rw [hq] at h <;> dsimp only at h
    · simp at h
    · split at h <;> simp at h

/-- C2: a negative numeric parameter does not make compilation fail with
the negative-parameter error; the value < 0 throw is unreachable because
the digit capture of contentParamPattern never matches a minus sign, so
a clause carrying offset:-5 compiles as if the parameter were absent
(silently accepted), while a positive offset is honoured. -/
theorem negative_param_never_rejected :
    (∀ s, processSpec s ≠ .error .unsupportedNegativeParam) ∧
      getContentPattern ["content:\"AB\"; offset:-5;".data] = .ok (some "AB".data) ∧
      getContentPattern ["content:\"AB\"; offset:3;".data] =
        .ok (some "^.\x7b3\x7d.*AB".data) :=
  ⟨processSpec_no_negative, rfl, rfl⟩

/-- C9: the compiled patterns are invariant under the maxLookaheads
configuration value: two runs of the assembler that differ only in that
option produce identical outputs, because no part of the compilation
pipeline consults it. -/
theorem pattern_independent_of_maxLookaheads (po : ParserOptions) (m : Int) (sid : Nat)
    (groups : List ((Nat × Bool) × List (List Char))) :
    assembleRule { po with maxLookaheads := m } sid groups = assembleRule po sid groups := rfl

/-- Folding appends from the left equals concatenating the mapped
pieces. -/
theorem foldl_append_eq (f : List Char → List Char) :
    ∀ (l : List (List Char)) (acc : List Char),
      l.foldl (fun a q => a ++ f q) acc = acc ++ (l.map f).foldr (· ++ ·) [] := by
  intro l
  induction l with
  | nil => intro acc; simp
  | cons x xs ih => intro acc; simp [ih, List.append_assoc]

/-- The combining loop agrees with the specification formula whenever at
least two independent elements were produced. -/
theorem combinePatterns_eq_spec : ∀ ps : List (List Char), 2 ≤ ps.length →
    combinePatterns ps = some (specAndFormula ps) := by
  intro ps hlen
  rcases List.eq_nil_or_concat ps with rfl | ⟨init, a, rfl⟩
  · simp at hlen
  · simp only [List.concat_eq_append] at hlen ⊢
    unfold combinePatterns specAndFormula
    dsimp only
    have hn : (init ++ [a]).length - 1 = init.length := by simp
    have hgt : (init ++ [a]).length > 1 := hlen
    rw [if_pos hgt, hn, List.take_left, List.getElem?_append_right (Nat.le_refl _)]
    simp [List.dropLast_concat, List.getLast?_concat, foldl_append_eq]

/-- C1 counterexample: with a single independent element the compiled
pattern is the element itself, with no leading .* stub, while the
formula claimed for every n would give .*P1. -/
theorem and_formula_single_element_counterexample :
    buildGo [] ["content:\"AB\"".data] = .ok ["AB".data] ∧
      getContentPattern ["content:\"AB\"".data] = .ok (some "AB".data) ∧
      specAndFormula ["AB".data] = ".*AB".data ∧
      "AB".data ≠ ".*AB".data :=
  ⟨rfl, rfl, rfl, by decide⟩

/-- C1 (amended): whenever building the independent elements yields at
least two of them, the compiled pattern is exactly
(?=.* P1)(?=.* P2)...(?=.* Pn-1).* Pn in encounter order; with a single
element the pattern is that element alone, with no .* stub. -/
theorem and_formula_two_or_more : ∀ (specs ps : List (List Char)),
    buildGo [] specs = .ok ps → 2 ≤ ps.length →
    getContentPattern specs = .ok (some (specAndFormula ps)) := by
  intro specs ps h hlen
  unfold getContentPattern
  rw [h]
  dsimp only
  rw [combinePatterns_eq_spec ps hlen]

/-- C1 witness: two plain content clauses compile to the formula at the
concrete input. -/
theorem and_formula_two_or_more_witness :
    getContentPattern ["content:\"AB\"".data, "content:\"CD\"".data] =
      .ok (some (specAndFormula ["AB".data, "CD".data])) :=
  and_formula_two_or_more _ ["AB".data, "CD".data] rfl (by decide)

/-- Appending onto the last element never produces an empty vector. -/
theorem appendToLast_ne_nil : ∀ (l : List (List Char)) (t : List Char), appendToLast l t ≠ [] := by
  intro l t
  cases l with
  | nil => simp [appendToLast]
  | cons x xs => cases xs <;> simp [appendToLast]

/-- The element-building loop never empties a non-empty accumulator, and
fills an empty one as soon as it consumes a specifier. -/
theorem buildGo_ne_nil : ∀ (l acc ps : List (List Char)),
    buildGo acc l = .ok ps → (acc ≠ [] ∨ l ≠ []) → ps ≠ [] := by
  intro l
  induction l with
  | nil =>
    intro acc ps h hne
    rw [buildGo] at h
    simp at h
    rcases hne with hne | hne
    · simpa [← h] using hne
    · simp at hne
  | cons s rest ih =>
    intro acc ps h hne
    rw [buildGo] at h
    rcases hp : processSpec s with e | ⟨t, rel⟩ <;> rw [hp] at h <;> dsimp only at h
    · simp at h
    · refine ih _ ps h (Or.inl ?_)
      split
      · exact appendToLast_ne_nil acc t
      · simp

/-- A non-empty element vector makes the final read in bounds. -/
theorem combinePatterns_some_of_ne_nil : ∀ ps : List (List Char), ps ≠ [] →
    ∃ q, combinePatterns ps = some q := by
  intro ps h
  unfold combinePatterns
  dsimp only
  have hlt : ps.length - 1 < ps.length := by
    have := List.length_pos.mpr h
    omega
  rw [List.getElem?_eq_getElem hlt]
  exact ⟨_, rfl⟩

/-- C10: for every non-empty specifier list that compiles, the
independent-elements vector is non-empty when the final element is read,
so the read at index numPatterns - 1 is in bounds and a pattern is
produced; on the empty list the final read is out of bounds (modelled as
none). -/
theorem final_element_read_bounds :
    (∀ (specs : List (List Char)) (r : Option (List Char)),
        specs ≠ [] → getContentPattern specs = .ok r → r.isSome = true) ∧
      getContentPattern [] = .ok none := by
  constructor
  · intro specs r hne h
    unfold getContentPattern at h
    rcases hb : buildGo [] specs with e | ps <;> rw [hb] at h <;> dsimp only at h
    · simp at h
    · have hps := buildGo_ne_nil specs [] ps hb (Or.inr hne)
      obtain ⟨q, hq⟩ := combinePatterns_some_of_ne_nil ps hps
      simp only [Except.ok.injEq] at h
      rw [← h, hq]
      rfl
  · rfl

/-- C10 witness: the in-bounds half applied at a one-clause input. -/
theorem final_element_read_bounds_witness :
    (some "AB".data : Option (List Char)).isSome = true :=
  final_element_read_bounds.1 ["content:\"AB\"".data] (some "AB".data) (by decide) rfl

/-- Appending onto the last element rewrites only the last element. -/
theorem appendToLast_eq : ∀ (l : List (List Char)) (t : List Char), l ≠ [] →
    appendToLast l t = l.dropLast ++ [(l.getLast?).getD [] ++ t] := by
  intro l
  induction l with
  | nil => intro t h; simp at h
  | cons x xs ih =>
    intro t _
    cases xs with
    | nil => simp [appendToLast]
    | cons y ys =>
      rw [appendToLast, ih t (by simp)]
      simp [List.getLast?_cons_cons]

/-- Appending onto the last element keeps the element count. -/
theorem appendToLast_length : ∀ (l : List (List Char)) (t : List Char), l ≠ [] →
    (appendToLast l t).length = l.length := by
  intro l t h
  rw [appendToLast_eq l t h]
  have := List.length_pos.mpr h
  simp
  omega

/-- C7: a specifier processed as relative that follows at least one
already produced independent element is concatenated onto the text of
the most recent element instead of being pushed, so the loop continues
with only the last element rewritten and the element count (hence the
number of AND lookaheads) unchanged. -/
theorem relative_attaches_to_last : ∀ (s t : List Char) (acc rest : List (List Char)),
    processSpec s = .ok (t, true) → acc ≠ [] →
    buildGo acc (s :: rest) =
        buildGo (acc.dropLast ++ [(acc.getLast?).getD [] ++ t]) rest ∧
      (appendToLast acc t).length = acc.length := by
  intro s t acc rest hs hne
  constructor
  · rw [buildGo, hs]
    dsimp only
    have hc : (true && decide (acc.length > 0)) = true := by
      simp [List.length_pos.mpr hne]
    rw [if_pos hc, appendToLast_eq acc t hne]
  · exact appendToLast_length acc t hne

/-- C7 witness: a distance clause following one element attaches to it. -/
theorem relative_attaches_to_last_witness :
    buildGo ["A".data] ["content:\"B\"; distance:3;".data] =
        buildGo ((["A".data] : List (List Char)).dropLast ++
          [((["A".data] : List (List Char)).getLast?).getD [] ++ ".\x7b3\x7d.*B".data]) [] ∧
      (appendToLast ["A".data] ".\x7b3\x7d.*B".data).length =
        (["A".data] : List (List Char)).length :=
  relative_attaches_to_last _ _ _ _ rfl (by decide)

/-- A list leads with itself followed by anything. -/
theorem leadsWith_refl_append : ∀ (x b : List Char), leadsWith x (x ++ b) = true := by
  intro x
  induction x with
  | nil => intro b; rfl
  | cons c cs ih => intro b; simp [leadsWith, ih]

/-- A leading segment occurs in the list. -/
theorem occursIn_of_leadsWith : ∀ (x l : List Char), leadsWith x l = true → occursIn x l = true := by
  intro x l h
  cases l <;> simp [occursIn, h]

/-- A sandwiched segment occurs in the list. -/
theorem occursIn_append_self : ∀ (a x b : List Char), occursIn x (a ++ x ++ b) = true := by
  intro a x b
  induction a with
  | nil => exact occursIn_of_leadsWith _ _ (leadsWith_refl_append x b)
  | cons c cs ih =>
    simp only [occursIn, List.cons_append, Bool.or_eq_true]
    right
    simpa using ih

/-- C8 counterexample: the failure report for a buffer group carries the
rule identifier but not the buffer name: for a rule with SID 7 whose
http_header group (index 3) fails the depth check, neither report line
contains the string http_header. -/
theorem assembler_report_lacks_buffer_name :
    assembleRule ⟨[], -1, false, false⟩ 7 [((3, false), ["content:\"ABC\"; depth:2;".data])] =
        [.reported [failureHeader 7, errorMessage .invalidDepth]] ∧
      keywordIndexToName 3 = some "http_header" ∧
      occursIn "http_header".data (failureHeader 7 ++ errorMessage .invalidDepth) = false :=
  ⟨rfl, rfl, by decide⟩

/-- C8 (amended): when compiling one buffer group fails with any of the
compiler errors, the assembler emits a report containing the rule
identifier (but not the buffer name) and the exception message, and the
outputs of all other buffer groups of the same rule are produced exactly
as if the failing group were processed alone among them. -/
theorem assembler_reports_and_continues :
    ∀ (po : ParserOptions) (sid : Nat) (gs1 gs2 : List ((Nat × Bool) × List (List Char)))
      (key : Nat × Bool) (specs : List (List Char)) (e : CompileError),
      getContentPattern specs = .error e →
      assembleRule po sid (gs1 ++ (key, specs) :: gs2) =
          assembleRule po sid gs1 ++
            .reported [failureHeader sid, errorMessage e] :: assembleRule po sid gs2 ∧
        occursIn (Nat.repr sid).data (failureHeader sid) = true := by
  intro po sid gs1 gs2 key specs e h
  constructor
  · simp [assembleRule, processGroup, h]
  · unfold failureHeader
    exact occursIn_append_self _ _ _

/-- C8 witness: a failing middle group between two compiling groups. -/
theorem assembler_reports_and_continues_witness :
    assembleRule ⟨[], -1, false, false⟩ 5
        ([((0, false), ["content:\"X\"".data])] ++
          ((3, false), ["content:\"ABC\"; depth:2;".data]) ::
            [((2, false), ["content:\"Y\"".data])]) =
        assembleRule ⟨[], -1, false, false⟩ 5 [((0, false), ["content:\"X\"".data])] ++
          .reported [failureHeader 5, errorMessage .invalidDepth] ::
            assembleRule ⟨[], -1, false, false⟩ 5 [((2, false), ["content:\"Y\"".data])] ∧
      occursIn (Nat.repr 5).data (failureHeader 5) = true :=
  assembler_reports_and_continues _ 5 _ _ _ _ _ rfl

/-- A list starting with x has x as its first x.length elements. -/
theorem leadsWith_take : ∀ (x l : List Char), leadsWith x l = true → l.take x.length = x := by
  intro x
  induction x with
  | nil => intro l _; rfl
  | cons c cs ih =>
    intro l h
    cases l with
    | nil => simp [leadsWith] at h
    | cons d ds =>
      simp only [leadsWith, Bool.and_eq_true, decide_eq_true_eq] at h
      simp [h.1.symm, ih ds h.2]

/-- A successfully consumed content clause begins with the seven
characters of the keyword, so the dispatch at the top of the loop body
takes the content branch. -/
theorem consumeContent_starts : ∀ (s : List Char) (x : Bool × List Char × List Char),
    consumeContent s = some x → s.take 7 = "content".data := by
  intro s x h
  unfold consumeContent at h
  split at h
  case isTrue hl =>
    have h8 := leadsWith_take "content:".data s hl
    have : s.take 7 = (s.take 8).take 7 := by
      rw [List.take_take]
      norm_num
    rw [this]
    rw [show ("content:".data.length) = 8 from rfl] at h8
    rw [h8]
    rfl
  case isFalse => simp at h

/-- Characterization of the only failure of element assembly: the
window branch is active and the declared depth is below the semantic
content size. -/
theorem buildContent_invalidDepth_iff : ∀ p : ParsedContent,
    buildContent p = .error .invalidDepth ↔
      ((decide (p.offset > 0) || p.depth.isSome) = true ∧
        depthLtSize p.depth (semanticLength p) = true) := by
  intro p
  unfold buildContent
  repeat' split
  all_goals simp_all

/-- C4: for a content clause whose parse carries a declared depth or
within value d, compilation of the clause fails with the depth error
exactly when d is smaller than the semantic length of the literal
(transformed length minus escape insertions minus hex deltas). -/
theorem depth_fails_iff_below_semantic_length :
    ∀ (s : List Char) (p : ParsedContent) (d : Nat),
      parseContent s = .ok p → p.depth = some d →
      (processSpec s = .error .invalidDepth ↔ d < semanticLength p) := by
  intro s p d hp hd
  have hcc : ∃ x, consumeContent s = some x := by
    unfold parseContent at hp
    rcases hc : consumeContent s with _ | x <;> rw [hc] at hp
    · simp at hp
    · exact ⟨x, rfl⟩
  obtain ⟨x, hx⟩ := hcc
  have h7 := consumeContent_starts s x hx
  unfold processSpec
  rw [if_pos h7, hp]
  dsimp only
  rcases hb : buildContent p with e | body <;> dsimp only
  · have he := buildContent_error_eq p e hb
    subst he
    have hiff := (buildContent_invalidDepth_iff p).mp hb
    rw [hd] at hiff
    simp only [depthLtSize, decide_eq_true_eq] at hiff
    simp [hiff.2]
  · have hnd : ¬ d < semanticLength p := by
      intro hlt
      have : buildContent p = .error .invalidDepth := by
        rw [buildContent_invalidDepth_iff]
        constructor
        · simp [hd]
        · simp [hd, depthLtSize, hlt]
      rw [this] at hb
      cases hb
    simp [hnd]

/-- C4 witness: depth 2 against the three-byte literal ABC fails. -/
theorem depth_fails_iff_below_semantic_length_witness :
    processSpec "content:\"ABC\"; depth:2;".data = .error .invalidDepth ↔
      2 < semanticLength ⟨false, "ABC".data, 0, 0, [], 0, some 2, false⟩ :=
  depth_fails_iff_below_semantic_length _ _ 2 rfl rfl

/-- A hex digit is never the pipe delimiter. -/
theorem hexDigit_ne_pipe : ∀ c : Char, hexDigit c = true → c ≠ '|' := by
  intro c h heq
  subst heq
  exact absurd h (by decide)

/-- A successful hex-run match splits its input at the closing pipe, and
the consumed run contains no pipe. -/
theorem hexRunMatch_decomp : ∀ (l r t : List Char), hexRunMatch l = some (r, t) →
    l = r ++ '|' :: t ∧ r.count '|' = 0 := by
  intro l
  induction l using hexRunMatch.induct
  all_goals intro r t h
  all_goals rw [hexRunMatch] at h
  all_goals first
  | (simp only [Option.some.injEq, Prod.mk.injEq] at h
     rcases h with ⟨rfl, rfl⟩
     simp)
  | (rename_i hhex ih
     rw [if_pos hhex] at h
     simp only [Option.map_eq_some'] at h
     obtain ⟨⟨r1, t1⟩, hm, heq⟩ := h
     simp only [Prod.mk.injEq] at heq
     obtain ⟨hr, ht⟩ := heq
     subst hr
     subst ht
     obtain ⟨hl, hc⟩ := ih _ _ hm
     subst hl
     rw [Bool.and_eq_true] at hhex
     refine ⟨by simp, ?_⟩
     simp [List.count_cons, hc, hexDigit_ne_pipe _ hhex.1, hexDigit_ne_pipe _ hhex.2])
  | simp_all

/-- A successful pipe search splits its input around the two delimiter
pipes, with a pipe-free run between them. -/
theorem pipeFind_decomp : ∀ (l a r b : List Char), pipeFind l = some (a, r, b) →
    l = a ++ '|' :: (r ++ '|' :: b) ∧ r.count '|' = 0 := by
  intro l
  induction l with
  | nil => intro a r b h; rw [pipeFind] at h; simp at h
  | cons c rest ih =>
    intro a r b h
    rw [pipeFind] at h
    rcases hf : pipeFind rest with _ | ⟨a', r', b'⟩ <;> rw [hf] at h <;> dsimp only at h
    · split at h
      case isTrue hc =>
        simp only [Option.map_eq_some'] at h
        obtain ⟨⟨r1, b1⟩, hm, heq⟩ := h
        simp only [Prod.mk.injEq] at heq
        obtain ⟨ha, hr, hb⟩ := heq
        subst ha
        subst hr
        subst hb
        subst hc
        obtain ⟨hl, hc0⟩ := hexRunMatch_decomp rest _ _ hm
        exact ⟨by simp [hl], hc0⟩
      case isFalse => simp at h
    · simp only [Option.some.injEq, Prod.mk.injEq] at h
      obtain ⟨ha, hr, hb⟩ := h
      subst ha
      subst hr
      subst hb
      obtain ⟨hl, hc0⟩ := ih _ _ _ hf
      exact ⟨by simp [hl], hc0⟩

/-- Fewer than two pipes admit no pipe-run match. -/
theorem pipeFind_none_of_le_one : ∀ l : List Char, l.count '|' ≤ 1 → pipeFind l = none := by
  intro l h
  rcases hf : pipeFind l with _ | ⟨a, r, b⟩
  · rfl
  · exfalso
    obtain ⟨hl, _⟩ := pipeFind_decomp l a r b hf
    rw [hl] at h
    simp [List.count_append, List.count_cons] at h
    omega

/-- On a pipe-free prefix and suffix, the greedy search finds exactly
the embedded 41 42 run. -/
theorem pipeFind_run : ∀ a : List Char, a.count '|' = 0 → ∀ b : List Char, b.count '|' = 0 →
    pipeFind (a ++ "|41 42|".data ++ b) = some (a, "41 42".data, b) := by
  intro a
  induction a with
  | nil =>
    intro _ b hb
    show pipeFind ('|' :: ('4' :: '1' :: ' ' :: '4' :: '2' :: '|' :: b)) =
      some ([], "41 42".data, b)
    rw [pipeFind]
    have hn : pipeFind ('4' :: '1' :: ' ' :: '4' :: '2' :: '|' :: b) = none :=
      pipeFind_none_of_le_one _ (by simp [List.count_cons, hb])
    rw [hn]
    dsimp only
    rw [if_pos rfl]
    have hm : hexRunMatch ('4' :: '1' :: ' ' :: '4' :: '2' :: '|' :: b) =
        some ("41 42".data, b) := by
      simp [hexRunMatch, hexDigit]
    rw [hm]
    rfl
  | cons c a' ih =>
    intro hca b hb
    have hc0 : a'.count '|' = 0 := by
      simp [List.count_cons] at hca
      omega
    show pipeFind (c :: (a' ++ "|41 42|".data ++ b)) = some (c :: a', "41 42".data, b)
    rw [pipeFind, ih hc0 b hb]

/-- C5: a literal with an embedded pipe-delimited run 41 42 has the run
rewritten to the two inline escapes (backslash x41, backslash x42) with
a hex count of 2, so the semantic length (transformed length minus three
characters per hex pair) charges the run exactly two bytes however many
characters the pipe notation occupied; end to end, such a literal with
depth 4 compiles, charging the run two of the four bytes. -/
theorem hex_run_counts_two_bytes : ∀ (a b : List Char), a.count '|' = 0 → b.count '|' = 0 →
    pipeLoop (a ++ "|41 42|".data ++ b) = (a ++ "\\x41\\x42".data ++ b, 2) ∧
      (a ++ "\\x41\\x42".data ++ b).length - 3 * 2 = a.length + b.length + 2 ∧
      getContentPattern ["content:\"A|41 42|B\"; depth:4;".data] =
        .ok (some "^A\\x41\\x42B".data) := by
  intro a b ha hb
  refine ⟨?_, ?_, rfl⟩
  · unfold pipeLoop
    have hcount : (a ++ "|41 42|".data ++ b).count '|' = 2 := by
      simp [List.count_append, ha, hb]
    rw [hcount]
    rw [show (2 : Nat) + 1 = Nat.succ 2 from rfl, pipeLoopF]
    rw [pipeFind_run a ha b hb]
    dsimp only
    rw [show hexReplace "41 42".data = ("\\x41\\x42".data, 2) from rfl]
    dsimp only
    rw [show (2 : Nat) = Nat.succ 1 from rfl, pipeLoopF]
    rw [pipeFind_none_of_le_one _ (by simp [List.count_append, ha, hb])]
  · simp [List.length_append]
    omega

/-- C5 witness: the general substitution applied with one-byte context
on each side of the run. -/
theorem hex_run_counts_two_bytes_witness :
    pipeLoop ("A".data ++ "|41 42|".data ++ "B".data) =
        ("A".data ++ "\\x41\\x42".data ++ "B".data, 2) ∧
      ("A".data ++ "\\x41\\x42".data ++ "B".data).length - 3 * 2 =
        "A".data.length + "B".data.length + 2 ∧
      getContentPattern ["content:\"A|41 42|B\"; depth:4;".data] =
        .ok (some "^A\\x41\\x42B".data) :=
  hex_run_counts_two_bytes "A".data "B".data rfl rfl

end FastSNAP
